import Mathlib

/-
Verification of the safe_stack repository (a self-checking dynamic-array
stack, C++ header include/safe_stack/safe_stack.h plus the byte-wise hash
of include/safe_stack/hash.h).

Shallow embedding conventions:
  * machine fields (canaries, the data pointer value, capacity, size) are
    Nat values below 2 ^ 64; the 8-bit hash accumulator wraps with % 256;
  * the element buffer is represented by the ghost list `elems` holding the
    live elements _data[0 .. size); the pointer VALUE is kept separately in
    `dataAddr` (0 models nullptr) because the checksum hashes the pointer
    bytes;
  * C++ exceptions become an `Option Err` result paired with the state the
    object is left in when the exception propagates;
  * heap traffic (allocate / deallocate / construct / copy / move / destroy
    of elements) is recorded as an event trace, so that claims about "no
    copies" or "buffer released" are statable;
  * allocation is nondeterministic in C++ (operator new); every operation
    that can allocate takes an `Option Nat` argument: `some a` means the
    allocator returns address `a`, `none` means it throws std::bad_alloc.
    The C++ allocator never returns a null pointer, so theorems assume the
    supplied address is nonzero.
-/

set_option maxRecDepth 16384

namespace SafeStack

/-- Multiplier of the rolling hash (hash.h: hash_factor = 31). -/
def hash_factor : Nat := 31

/-- Canary constant of safe_stack.h (0xDEADBEEFBADF00Dul). -/
def canary_value : Nat := 0xDEADBEEFBADF00D

/-- One step of the rolling hash of hash.h: result = hash_factor * result + byte,
computed in an unsigned char accumulator, hence the % 256. -/
def hashStep (acc b : Nat) : Nat := (hash_factor * acc + b) % 256

/-- The hash of hash.h over a byte sequence: seed 1, then one hashStep per byte. -/
def hashBytes (bs : List Nat) : Nat := bs.foldl hashStep 1

/-- Little-endian byte decomposition of a machine word: n bytes of v. -/
def toBytesL : Nat → Nat → List Nat
  | 0, _ => []
  | n + 1, v => v % 256 :: toBytesL n (v / 256)

/-- Recomposition of a little-endian byte list into a Nat. -/
def fromBytesL : List Nat → Nat
  | [] => 0
  | b :: bs => b + 256 * fromBytesL bs

/-- The C++ object Stack<T>: fields in declaration order
start_canary, _data, _capacity, _hash, _size, end_canary.
`elems` is the ghost content of the live prefix of the buffer. -/
structure Stack (T : Type) where
  start_canary : Nat
  dataAddr : Nat
  elems : List T
  capacity : Nat
  hash : Nat
  size : Nat
  end_canary : Nat
deriving DecidableEq, Repr

/-- Serialization of the control block in member declaration order, with `h`
standing in the byte slot of the _hash field (compute_hash zeroes it).
The stateless allocator member and struct padding contribute no information
and are omitted. -/
def ctrlBytes {T : Type} (s : Stack T) (h : Nat) : List Nat :=
  toBytesL 8 s.start_canary ++ toBytesL 8 s.dataAddr ++ toBytesL 8 s.capacity ++
    [h] ++ toBytesL 8 s.size ++ toBytesL 8 s.end_canary

/-- Stack::compute_hash: zero the stored hash, then hash every byte of the
object (hash.h template applied to *this). -/
def compute_hash {T : Type} (s : Stack T) : Nat := hashBytes (ctrlBytes s 0)

/-- Stack::valid: both canaries intact, stored hash equals the recomputed
hash, size <= capacity, and capacity == 0 iff data == nullptr. -/
def valid {T : Type} (s : Stack T) : Bool :=
  s.start_canary == canary_value && s.end_canary == canary_value &&
    s.hash == compute_hash s && decide (s.size ≤ s.capacity) &&
    ((s.capacity == 0 && s.dataAddr == 0) || (!(s.capacity == 0) && !(s.dataAddr == 0)))

/-- Errors signalled by the container: StackUnderflow, StackInvalidState and
std::bad_alloc out of the allocator. -/
inductive Err where
  | underflow
  | invalidState
  | allocFail
deriving DecidableEq, Repr

/-- Heap events produced by an operation, in program order. -/
inductive Ev where
  | allocE (a n : Nat)
  | deallocE (a n : Nat)
  | constructE
  | copyE
  | moveElemE
  | destroyE
deriving DecidableEq, Repr

/-- Result of a mutating operation: the signalled error if the C++ code
throws, the state the object is left in, and the heap event trace. -/
abbrev Res (T : Type) := Option Err × Stack T × List Ev

/-- Store a freshly recomputed integrity tag in the object (the C++ pattern
_hash = compute_hash(), which zeroes the stored tag during the computation,
so the prior tag value is irrelevant). -/
def recomputeTag {T : Type} (s : Stack T) : Stack T :=
  { s with hash := compute_hash s }

/-- Stack::Stack(): all members take their initializers, then _hash is set to
compute_hash(). -/
def mkEmpty (T : Type) : Stack T :=
  recomputeTag
    { start_canary := canary_value, dataAddr := 0, elems := [], capacity := 0,
      hash := 0, size := 0, end_canary := canary_value }

/-- Fields of the object after the body of clear_internal: data, capacity
and size zeroed, hash recomputed. -/
def resetState {T : Type} (s : Stack T) : Stack T :=
  recomputeTag { s with dataAddr := 0, elems := [], capacity := 0, size := 0 }

/-- Stack::clear_internal: when _data is non-null, destroy _size elements,
deallocate the buffer, zero the fields and recompute the hash; always
validate at the end. -/
def clear_internal {T : Type} (s : Stack T) : Res T :=
  if s.dataAddr == 0 then
    (if valid s then none else some Err.invalidState, s, [])
  else
    (if valid (resetState s) then none else some Err.invalidState, resetState s,
      List.replicate s.size Ev.destroyE ++ [Ev.deallocE s.dataAddr s.capacity])

/-- Fields of the object after the reallocation body of reserve: new buffer
address and capacity adopted, size clamped to min(capacity, size), the
surviving live prefix moved over, hash recomputed. -/
def reservedState {T : Type} (s : Stack T) (new_capacity a : Nat) : Stack T :=
  recomputeTag
    { s with capacity := new_capacity, size := min s.capacity s.size, dataAddr := a,
             elems := s.elems.take (min s.capacity s.size) }

/-- Heap events of the reallocation body of reserve. -/
def reserveEvs {T : Type} (s : Stack T) (new_capacity a : Nat) : List Ev :=
  if s.dataAddr == 0 then
    [Ev.allocE a new_capacity]
  else
    Ev.allocE a new_capacity :: (List.replicate (min s.capacity s.size) Ev.moveElemE ++
      List.replicate s.size Ev.destroyE ++ [Ev.deallocE s.dataAddr s.capacity])

/-- Stack::reserve: validate; new_capacity == 0 short-circuits to
clear_internal; otherwise allocate (this is the only fallible step and
happens before any mutation), move min(capacity, size) elements over,
destroy the old elements and release the old buffer when it exists, adopt
the new buffer, recompute the hash and validate. -/
def reserve {T : Type} (new_capacity : Nat) (alloc : Option Nat) (s : Stack T) : Res T :=
  if valid s then
    if new_capacity == 0 then
      clear_internal s
    else
      match alloc with
      | none => (some Err.allocFail, s, [])
      | some a =>
        (if valid (reservedState s new_capacity a) then none else some Err.invalidState,
          reservedState s new_capacity a, reserveEvs s new_capacity a)
  else (some Err.invalidState, s, [])

/-- Fields of the object after the construction step of emplace: the new
element constructed at _data[_size], size incremented, hash recomputed. -/
def pushedState {T : Type} (x : T) (s : Stack T) : Stack T :=
  recomputeTag { s with elems := s.elems ++ [x], size := s.size + 1 }

/-- Stack::emplace (also push): validate; grow to capacity * 2 + 1 when full
(growth_factor = 2, the double arithmetic is exact on the representable
range); construct the new element at _data[_size]; bump the size; recompute
the hash; validate. -/
def emplace {T : Type} (x : T) (alloc : Option Nat) (s : Stack T) : Res T :=
  if valid s then
    let grown : Res T :=
      if s.size == s.capacity then reserve (2 * s.capacity + 1) alloc s
      else (none, s, [])
    match grown with
    | (some e, s1, evs1) => (some e, s1, evs1)
    | (none, s1, evs1) =>
      (if valid (pushedState x s1) then none else some Err.invalidState,
        pushedState x s1, evs1 ++ [Ev.constructE])
  else (some Err.invalidState, s, [])

/-- Fields of the object after the removal step of pop: size decremented,
hash recomputed, the vacated element destroyed. -/
def poppedState {T : Type} (s : Stack T) : Stack T :=
  recomputeTag { s with size := s.size - 1, elems := s.elems.take (s.size - 1) }

/-- Stack::pop: validate; underflow on size 0; decrement size, recompute the
hash, destroy the vacated element; shrink with reserve(_size) when
size / capacity < 0.4 (the double comparison equals the exact rational
comparison 5 * size < 2 * capacity on the representable range); validate. -/
def pop {T : Type} (alloc : Option Nat) (s : Stack T) : Res T :=
  if valid s then
    if s.size == 0 then (some Err.underflow, s, [])
    else
      let shrunk : Res T :=
        if 5 * (poppedState s).size < 2 * (poppedState s).capacity then
          reserve (poppedState s).size alloc (poppedState s)
        else (none, poppedState s, [])
      match shrunk with
      | (some e, s3, evs) => (some e, s3, Ev.destroyE :: evs)
      | (none, s3, evs) =>
        (if valid s3 then none else some Err.invalidState, s3, Ev.destroyE :: evs)
  else (some Err.invalidState, s, [])

/-- Stack::top (the non-const overload): validate; underflow on size 0; else
return _data[_size - 1]. -/
def top {T : Type} [Inhabited T] (s : Stack T) : Except Err T :=
  if valid s then
    if s.size == 0 then Except.error Err.underflow
    else Except.ok (s.elems.getD (s.size - 1) default)
  else Except.error Err.invalidState

/-- Fuel-indexed embedding of the const overload of Stack::top, whose body is
a single call to itself on the same unchanged receiver; running out of fuel
yields none. -/
def topConstFuel {T : Type} : Nat → Stack T → Option (Except Err T)
  | 0, _ => none
  | fuel + 1, s => topConstFuel fuel s

/-- Divergence of the const top overload on a given state: no amount of fuel
produces a result (in particular it never signals an error). -/
def topConstDiverges {T : Type} (s : Stack T) : Prop :=
  ∀ fuel : Nat, topConstFuel fuel s = (none : Option (Except Err T))

/-- Stack::clear: validate, clear_internal, validate. -/
def clear {T : Type} (s : Stack T) : Res T :=
  if valid s then
    match clear_internal s with
    | (some e, s1, evs) => (some e, s1, evs)
    | (none, s1, evs) =>
      (if valid s1 then none else some Err.invalidState, s1, evs)
  else (some Err.invalidState, s, [])

/-- Stack::size: validate, then report _size. -/
def sizeOp {T : Type} (s : Stack T) : Except Err Nat :=
  if valid s then Except.ok s.size else Except.error Err.invalidState

/-- Stack::empty: size() == 0, so the validity check of size() runs first. -/
def emptyOp {T : Type} (s : Stack T) : Except Err Bool :=
  match sizeOp s with
  | Except.error e => Except.error e
  | Except.ok n => Except.ok (n == 0)

/-- Fields of the destination after the body of copy assignment: capacity,
size, data overwritten from the source, hash recomputed, _size source
elements copied into the fresh buffer. -/
def copiedState {T : Type} (a : Nat) (dst src : Stack T) : Stack T :=
  recomputeTag
    { dst with capacity := src.capacity, size := src.size, dataAddr := a,
               elems := src.elems.take src.size }

/-- Copy assignment between distinct objects (the this == addressof o guard is
not taken): validate both sides, then overwrite capacity, size, allocator and
data with a freshly allocated buffer, recompute the hash, copy _size elements,
validate. The previous elements are never destroyed and the previous buffer
is never deallocated. -/
def copyAssign {T : Type} (a : Nat) (dst src : Stack T) : Res T :=
  if valid dst then
    if valid src then
      (if valid (copiedState a dst src) then none else some Err.invalidState,
        copiedState a dst src,
        Ev.allocE a src.capacity :: List.replicate src.size Ev.copyE)
    else (some Err.invalidState, dst, [])
  else (some Err.invalidState, dst, [])

/-- The new object built by the move constructor: canaries from their member
initializers, buffer, capacity and size adopted from the source, hash
freshly computed. -/
def movedDst {T : Type} (o : Stack T) : Stack T :=
  recomputeTag
    { start_canary := canary_value, dataAddr := o.dataAddr, elems := o.elems,
      capacity := o.capacity, hash := 0, size := o.size, end_canary := canary_value }

/-- The moved-from source: std::exchange leaves data = nullptr, capacity = 0
and size = 1; its stored hash is NOT recomputed. -/
def tombstone {T : Type} (o : Stack T) : Stack T :=
  { o with dataAddr := 0, elems := [], capacity := 0, size := 1 }

/-- Move construction: validate the source; exchange out its data (to
nullptr), capacity (to 0) and size (to 1); recompute the hash of the new
object only — the source keeps its now stale hash; validate the new object.
On success returns the new object, the tombstoned source, and the trace. -/
def moveCtor {T : Type} (o : Stack T) : Except Err (Stack T × Stack T × List Ev) :=
  if valid o then
    if valid (movedDst o) then Except.ok (movedDst o, tombstone o, [])
    else Except.error Err.invalidState
  else Except.error Err.invalidState

/-- The destination of move assignment after adopting the source fields:
buffer, capacity and size exchanged in, hash recomputed. -/
def adoptedState {T : Type} (d1 src : Stack T) : Stack T :=
  recomputeTag
    { d1 with dataAddr := src.dataAddr, elems := src.elems,
              capacity := src.capacity, size := src.size }

/-- Move assignment between distinct objects: validate both sides, clear the
destination (releasing its storage), exchange the source fields out,
recompute the destination hash only — the source keeps its stale hash —
and validate. Returns the error if any, the pair (destination, source) and
the trace. -/
def moveAssign {T : Type} (dst src : Stack T) : Option Err × (Stack T × Stack T) × List Ev :=
  if valid dst then
    if valid src then
      match clear dst with
      | (some e, d1, evs) => (some e, (d1, src), evs)
      | (none, d1, evs) =>
        (if valid (adoptedState d1 src) then none else some Err.invalidState,
          (adoptedState d1 src, tombstone src), evs)
    else (some Err.invalidState, (dst, src), [])
  else (some Err.invalidState, (dst, src), [])

/-- The public operations of the class that follow the validate-first
protocol, with their allocator inputs. -/
inductive Op (T : Type) where
  | pushO (x : T) (alloc : Option Nat)
  | popO (alloc : Option Nat)
  | topO
  | reserveO (n : Nat) (alloc : Option Nat)
  | clearO
  | sizeO
  | emptyO

/-- Error signalled by running one public operation on a state. -/
def opSignal {T : Type} [Inhabited T] (op : Op T) (s : Stack T) : Option Err :=
  match op with
  | Op.pushO x a => (emplace x a s).1
  | Op.popO a => (pop a s).1
  | Op.topO =>
    match top s with
    | Except.error e => some e
    | Except.ok _ => none
  | Op.reserveO n a => (reserve n a s).1
  | Op.clearO => (clear s).1
  | Op.sizeO =>
    match sizeOp s with
    | Except.error e => some e
    | Except.ok _ => none
  | Op.emptyO =>
    match emptyOp s with
    | Except.error e => some e
    | Except.ok _ => none

/-- Machine representability of the control fields (they are 64-bit in C++),
and of the stored 8-bit hash. -/
def wf {T : Type} (s : Stack T) : Prop :=
  s.start_canary < 2 ^ 64 ∧ s.dataAddr < 2 ^ 64 ∧ s.capacity < 2 ^ 64 ∧
    s.size < 2 ^ 64 ∧ s.end_canary < 2 ^ 64

instance {T : Type} (s : Stack T) : Decidable (wf s) := by
  unfold wf
  infer_instance

/-- The control-block fields whose bytes the corruption claims overwrite. -/
inductive CtrlField where
  | startF
  | capF
  | sizeF
  | endF
deriving DecidableEq, Repr

/-- Value of the selected control field. -/
def fieldVal {T : Type} (s : Stack T) : CtrlField → Nat
  | CtrlField.startF => s.start_canary
  | CtrlField.capF => s.capacity
  | CtrlField.sizeF => s.size
  | CtrlField.endF => s.end_canary

/-- Byte j (little-endian) of the selected control field. -/
def byteAt {T : Type} (s : Stack T) (f : CtrlField) (j : Nat) : Nat :=
  (toBytesL 8 (fieldVal s f)).getD j 0

/-- Overwrite byte j of a 64-bit word with b. -/
def setByteN (v j b : Nat) : Nat := fromBytesL ((toBytesL 8 v).set j b)

/-- Overwrite byte j of the selected control field of the object in memory,
leaving every other field (including the stored hash) unchanged. -/
def corrupt {T : Type} (s : Stack T) (f : CtrlField) (j b : Nat) : Stack T :=
  match f with
  | CtrlField.startF => { s with start_canary := setByteN s.start_canary j b }
  | CtrlField.capF => { s with capacity := setByteN s.capacity j b }
  | CtrlField.sizeF => { s with size := setByteN s.size j b }
  | CtrlField.endF => { s with end_canary := setByteN s.end_canary j b }

/-- Model-level invariant tying the ghost element list to the size field:
the state is valid and the live prefix has exactly size elements. Every
reachable uncorrupted state satisfies it. -/
def good {T : Type} (s : Stack T) : Prop :=
  valid s = true ∧ s.elems.length = s.size

instance {T : Type} [DecidableEq T] (s : Stack T) : Decidable (good s) := by
  unfold good
  infer_instance

/-- Number of buffer allocations in a trace. -/
def countAlloc (evs : List Ev) : Nat :=
  (evs.filter fun e =>
    match e with
    | Ev.allocE _ _ => true
    | _ => false).length

/-- True when the trace contains no element destruction and no buffer
deallocation. -/
def noRelease (evs : List Ev) : Bool :=
  evs.all fun e =>
    match e with
    | Ev.deallocE _ _ => false
    | Ev.destroyE => false
    | _ => true

/-- Run push for each listed value in order, drawing pairwise distinct
nonzero addresses k+1, k+2, ... for the allocations; returns the final
state and the next address counter. -/
def pushAll {T : Type} : List T → Nat → Stack T → Stack T × Nat
  | [], k, s => (s, k)
  | x :: xs, k, s => pushAll xs (k + 1) (emplace x (some (k + 1)) s).2.1

/-- Run top-then-pop n times, recording each observed top; allocation
addresses for the shrink reallocations are drawn from the counter. -/
def popAllObs {T : Type} [Inhabited T] : Nat → Nat → Stack T → List (Except Err T) × Stack T
  | 0, _, s => ([], s)
  | n + 1, k, s =>
    let t := top s
    let s1 := (pop (some (k + 1)) s).2.1
    let p := popAllObs n (k + 1) s1
    (t :: p.1, p.2)

/-- A concrete valid stack with two live elements in a buffer at address 100. -/
def stk2 : Stack Nat :=
  recomputeTag
    { start_canary := canary_value, dataAddr := 100, elems := [10, 20],
      capacity := 2, hash := 0, size := 2, end_canary := canary_value }

/-- A concrete valid stack with three live elements in a buffer at address 100. -/
def stk3 : Stack Nat :=
  recomputeTag
    { start_canary := canary_value, dataAddr := 100, elems := [1, 2, 3],
      capacity := 3, hash := 0, size := 3, end_canary := canary_value }

/-- A concrete valid stack with one live element and capacity 4. -/
def stk14 : Stack Nat :=
  recomputeTag
    { start_canary := canary_value, dataAddr := 100, elems := [10],
      capacity := 4, hash := 0, size := 1, end_canary := canary_value }

/-- The stored hash field does not feed back into the recomputed hash. -/
theorem compute_hash_set_hash {T : Type} (s : Stack T) (h : Nat) :
    compute_hash { s with hash := h } = compute_hash s := rfl

/-- The stored hash field does not feed back into the recomputed hash,
stated on explicit constructor applications. -/
theorem compute_hash_mk_hash {T : Type} (c1 da : Nat) (el : List T)
    (cap h1 h2 sz c2 : Nat) :
    compute_hash (Stack.mk c1 da el cap h1 sz c2) =
      compute_hash (Stack.mk c1 da el cap h2 sz c2) := rfl

/-- Propositional reading of the valid() predicate. -/
theorem valid_iff {T : Type} (s : Stack T) :
    valid s = true ↔
      s.start_canary = canary_value ∧ s.end_canary = canary_value ∧
        s.hash = compute_hash s ∧ s.size ≤ s.capacity ∧
        (s.capacity = 0 ↔ s.dataAddr = 0) := by
  simp only [valid, Bool.and_eq_true, Bool.or_eq_true, beq_iff_eq,
    Bool.not_eq_true', beq_eq_false_iff_ne, ne_eq, decide_eq_true_eq]
  tauto

/-- One hash step stays below the accumulator modulus. -/
theorem hashStep_lt (acc b : Nat) : hashStep acc b < 256 :=
  Nat.mod_lt _ (by norm_num)

/-- The accumulator stays below the modulus through any byte string. -/
theorem foldl_hashStep_lt : ∀ (l : List Nat) (a : Nat), a < 256 → l.foldl hashStep a < 256
  | [], _, h => h
  | b :: l, a, _ => foldl_hashStep_lt l (hashStep a b) (hashStep_lt a b)

/-- A hash step is injective in the accumulator (31 is invertible mod 256). -/
theorem hashStep_left_inj {a a' : Nat} (b : Nat) (ha : a < 256) (ha' : a' < 256)
    (h : hashStep a b = hashStep a' b) : a = a' := by
  have h1 : hash_factor * a + b ≡ hash_factor * a' + b [MOD 256] := by
    simpa [hashStep, Nat.ModEq] using h
  have h2 : a ≡ a' [MOD 256] :=
    Nat.ModEq.cancel_left_of_coprime (by decide) (h1.add_right_cancel' b)
  calc a = a % 256 := (Nat.mod_eq_of_lt ha).symm
    _ = a' % 256 := h2
    _ = a' := Nat.mod_eq_of_lt ha'

/-- A hash step is injective in the byte argument. -/
theorem hashStep_right_inj {b b' : Nat} (a : Nat) (hb : b < 256) (hb' : b' < 256)
    (h : hashStep a b = hashStep a b') : b = b' := by
  have h1 : hash_factor * a + b ≡ hash_factor * a + b' [MOD 256] := by
    simpa [hashStep, Nat.ModEq] using h
  have h2 : b ≡ b' [MOD 256] := h1.add_left_cancel' _
  calc b = b % 256 := (Nat.mod_eq_of_lt hb).symm
    _ = b' % 256 := h2
    _ = b' := Nat.mod_eq_of_lt hb'

/-- Distinct in-range accumulators stay distinct through any byte string. -/
theorem foldl_hashStep_ne : ∀ (l : List Nat) {a a' : Nat}, a < 256 → a' < 256 → a ≠ a' →
    l.foldl hashStep a ≠ l.foldl hashStep a'
  | [], _, _, _, _, hne => hne
  | b :: l, a, a', ha, ha', hne =>
    foldl_hashStep_ne l (hashStep_lt a b) (hashStep_lt a' b)
      (fun h => hne (hashStep_left_inj b ha ha' h))

/-- Changing one byte of the hashed string changes the hash. -/
theorem hashBytes_middle_ne (pre suf : List Nat) {b b' : Nat} (hb : b < 256) (hb' : b' < 256)
    (hne : b ≠ b') : hashBytes (pre ++ b :: suf) ≠ hashBytes (pre ++ b' :: suf) := by
  unfold hashBytes
  rw [List.foldl_append, List.foldl_append]
  exact foldl_hashStep_ne suf (hashStep_lt _ _) (hashStep_lt _ _)
    (fun h => hne (hashStep_right_inj _ hb hb' h))

/-- The byte decomposition has the requested width. -/
theorem toBytesL_length : ∀ (n v : Nat), (toBytesL n v).length = n
  | 0, _ => rfl
  | n + 1, v => by simp [toBytesL, toBytesL_length n]

/-- Every produced byte is below 256. -/
theorem toBytesL_lt : ∀ (n v : Nat), ∀ b ∈ toBytesL n v, b < 256
  | 0, _, b, hb => by simp [toBytesL] at hb
  | n + 1, v, b, hb => by
    simp only [toBytesL, List.mem_cons] at hb
    rcases hb with h | h
    · omega
    · exact toBytesL_lt n _ b h

/-- Recomposition inverts decomposition on representable words. -/
theorem fromBytesL_toBytesL : ∀ (n v : Nat), v < 256 ^ n → fromBytesL (toBytesL n v) = v
  | 0, v, h => by
    simp only [pow_zero, Nat.lt_one_iff] at h
    simp [toBytesL, fromBytesL, h]
  | n + 1, v, h => by
    have hdiv : v / 256 < 256 ^ n := by
      rw [Nat.div_lt_iff_lt_mul (by norm_num)]
      calc v < 256 ^ (n + 1) := h
        _ = 256 ^ n * 256 := by ring
    simp only [toBytesL, fromBytesL, fromBytesL_toBytesL n _ hdiv]
    omega

/-- Decomposition inverts recomposition on genuine byte lists. -/
theorem toBytesL_fromBytesL : ∀ (bs : List Nat), (∀ b ∈ bs, b < 256) →
    toBytesL bs.length (fromBytesL bs) = bs
  | [], _ => rfl
  | b :: bs, hlt => by
    have hb : b < 256 := hlt b (List.mem_cons_self b bs)
    have hmod : (b + 256 * fromBytesL bs) % 256 = b := by omega
    have hdiv : (b + 256 * fromBytesL bs) / 256 = fromBytesL bs := by omega
    simp only [fromBytesL, List.length_cons, toBytesL, hmod, hdiv,
      toBytesL_fromBytesL bs (fun x hx => hlt x (List.mem_cons_of_mem b hx))]

/-- A genuine byte list recomposes below 256 ^ length. -/
theorem fromBytesL_lt : ∀ (bs : List Nat), (∀ b ∈ bs, b < 256) →
    fromBytesL bs < 256 ^ bs.length
  | [], _ => by simp [fromBytesL]
  | b :: bs, hlt => by
    have hb : b < 256 := hlt b (List.mem_cons_self b bs)
    have ih := fromBytesL_lt bs (fun x hx => hlt x (List.mem_cons_of_mem b hx))
    simp only [fromBytesL, List.length_cons, pow_succ]
    calc b + 256 * fromBytesL bs < 256 * (fromBytesL bs + 1) := by omega
      _ ≤ 256 * 256 ^ bs.length := Nat.mul_le_mul_left _ ih
      _ = 256 ^ bs.length * 256 := by ring

/-- Every element of the overwritten byte list is still a byte. -/
theorem set_toBytesL_lt {v : Nat} (j b : Nat) (hb : b < 256) :
    ∀ x ∈ (toBytesL 8 v).set j b, x < 256 := by
  intro x hx
  rcases List.mem_or_eq_of_mem_set hx with h | h
  · exact toBytesL_lt 8 v x h
  · omega

/-- Byte decomposition of an overwritten word is the overwritten byte list. -/
theorem toBytesL_setByteN {v : Nat} (j b : Nat) (hb : b < 256) :
    toBytesL 8 (setByteN v j b) = (toBytesL 8 v).set j b := by
  have hlen : ((toBytesL 8 v).set j b).length = 8 := by
    simp [List.length_set, toBytesL_length]
  have h := toBytesL_fromBytesL ((toBytesL 8 v).set j b) (set_toBytesL_lt j b hb)
  rw [hlen] at h
  exact h

/-- Overwriting a byte keeps the word representable. -/
theorem setByteN_lt {v : Nat} (j b : Nat) (hb : b < 256) : setByteN v j b < 2 ^ 64 := by
  have hlen : ((toBytesL 8 v).set j b).length = 8 := by
    simp [List.length_set, toBytesL_length]
  have h := fromBytesL_lt ((toBytesL 8 v).set j b) (set_toBytesL_lt j b hb)
  rw [hlen] at h
  simpa using h

/-- Writing back the byte a list already holds is the identity. -/
theorem set_getD_self : ∀ (l : List Nat) (j : Nat), j < l.length → l.set j (l.getD j 0) = l
  | [], j, h => by simp at h
  | b :: l, 0, _ => rfl
  | b :: l, j + 1, h => by
    have ih := set_getD_self l j (by simpa using h)
    simpa [List.set] using ih

/-- Restoring the overwritten byte recovers the original word. -/
theorem setByteN_restore {v : Nat} (j b : Nat) (hv : v < 2 ^ 64) (hj : j < 8) (hb : b < 256) :
    setByteN (setByteN v j b) j ((toBytesL 8 v).getD j 0) = v := by
  have hjl : j < (toBytesL 8 v).length := by rw [toBytesL_length]; exact hj
  show fromBytesL ((toBytesL 8 (setByteN v j b)).set j ((toBytesL 8 v).getD j 0)) = v
  rw [toBytesL_setByteN j b hb, List.set_set, set_getD_self _ j hjl]
  exact fromBytesL_toBytesL 8 v (by simpa using hv)

/-- The byte a word holds at an in-range position is a byte. -/
theorem getD_toBytesL_lt (v j : Nat) (hj : j < 8) : (toBytesL 8 v).getD j 0 < 256 := by
  have hjl : j < (toBytesL 8 v).length := by rw [toBytesL_length]; exact hj
  rw [List.getD_eq_getElem?_getD, List.getElem?_eq_getElem hjl]
  exact toBytesL_lt 8 v _ (List.getElem_mem hjl)

/-- Overwriting one byte of an embedded word with a genuinely different byte
changes the hash of any string containing the word. -/
theorem hashBytes_set_ne (P Q : List Nat) {v j b : Nat} (hj : j < 8) (hb : b < 256)
    (hne : b ≠ (toBytesL 8 v).getD j 0) :
    hashBytes (P ++ (toBytesL 8 v).set j b ++ Q) ≠ hashBytes (P ++ toBytesL 8 v ++ Q) := by
  have hjl : j < (toBytesL 8 v).length := by rw [toBytesL_length]; exact hj
  have horig : (toBytesL 8 v).getD j 0 < 256 := getD_toBytesL_lt v j hj
  have hd := hashBytes_middle_ne (P ++ (toBytesL 8 v).take j)
    ((toBytesL 8 v).drop (j + 1) ++ Q) hb horig hne
  have e1 : (toBytesL 8 v).set j b = (toBytesL 8 v).take j ++ b :: (toBytesL 8 v).drop (j + 1) :=
    List.set_eq_take_cons_drop b hjl
  have e2 : toBytesL 8 v =
      (toBytesL 8 v).take j ++ (toBytesL 8 v).getD j 0 :: (toBytesL 8 v).drop (j + 1) := by
    conv_lhs => rw [← set_getD_self (toBytesL 8 v) j hjl]
    exact List.set_eq_take_cons_drop _ hjl
  rw [e1]
  conv_rhs => rw [e2]
  simpa [List.append_assoc] using hd

/-- Corrupting a control byte leaves the stored hash field untouched. -/
theorem corrupt_hash {T : Type} (s : Stack T) (f : CtrlField) (j b : Nat) :
    (corrupt s f j b).hash = s.hash := by
  cases f <;> rfl

/-- Overwriting any byte of a sentinel, the capacity field or the size field
with a different byte changes the recomputed hash. -/
theorem compute_hash_corrupt_ne {T : Type} (s : Stack T) (f : CtrlField) {j b : Nat}
    (hj : j < 8) (hb : b < 256) (hne : b ≠ byteAt s f j) :
    compute_hash (corrupt s f j b) ≠ compute_hash s := by
  cases f
  case startF =>
    have hne' : b ≠ (toBytesL 8 s.start_canary).getD j 0 := by
      simpa [byteAt, fieldVal] using hne
    have hd := hashBytes_set_ne []
      (toBytesL 8 s.dataAddr ++ toBytesL 8 s.capacity ++ [0] ++ toBytesL 8 s.size ++
        toBytesL 8 s.end_canary) hj hb hne'
    simpa [compute_hash, ctrlBytes, corrupt, toBytesL_setByteN j b hb,
      List.append_assoc] using hd
  case capF =>
    have hne' : b ≠ (toBytesL 8 s.capacity).getD j 0 := by
      simpa [byteAt, fieldVal] using hne
    have hd := hashBytes_set_ne (toBytesL 8 s.start_canary ++ toBytesL 8 s.dataAddr)
      ([0] ++ toBytesL 8 s.size ++ toBytesL 8 s.end_canary) hj hb hne'
    simpa [compute_hash, ctrlBytes, corrupt, toBytesL_setByteN j b hb,
      List.append_assoc] using hd
  case sizeF =>
    have hne' : b ≠ (toBytesL 8 s.size).getD j 0 := by
      simpa [byteAt, fieldVal] using hne
    have hd := hashBytes_set_ne
      (toBytesL 8 s.start_canary ++ toBytesL 8 s.dataAddr ++ toBytesL 8 s.capacity ++ [0])
      (toBytesL 8 s.end_canary) hj hb hne'
    simpa [compute_hash, ctrlBytes, corrupt, toBytesL_setByteN j b hb,
      List.append_assoc] using hd
  case endF =>
    have hne' : b ≠ (toBytesL 8 s.end_canary).getD j 0 := by
      simpa [byteAt, fieldVal] using hne
    have hd := hashBytes_set_ne
      (toBytesL 8 s.start_canary ++ toBytesL 8 s.dataAddr ++ toBytesL 8 s.capacity ++ [0] ++
        toBytesL 8 s.size) [] hj hb hne'
    simpa [compute_hash, ctrlBytes, corrupt, toBytesL_setByteN j b hb,
      List.append_assoc] using hd

/-- A single-byte corruption of the guarded fields falsifies valid(). -/
theorem valid_corrupt_false {T : Type} (s : Stack T) (f : CtrlField) {j b : Nat}
    (hv : valid s = true) (hj : j < 8) (hb : b < 256) (hne : b ≠ byteAt s f j) :
    valid (corrupt s f j b) = false := by
  rcases (valid_iff s).mp hv with ⟨_, _, hh, _, _⟩
  by_contra hcon
  have hcv : valid (corrupt s f j b) = true := by
    cases hval : valid (corrupt s f j b)
    · exact absurd hval hcon
    · rfl
  rcases (valid_iff _).mp hcv with ⟨_, _, hh2, _, _⟩
  rw [corrupt_hash, hh] at hh2
  exact compute_hash_corrupt_ne s f hj hb hne hh2.symm

/-- Every validate-first public operation on an invalid object signals
InvalidState. -/
theorem opSignal_invalid {T : Type} [Inhabited T] (s : Stack T) (hv : valid s = false)
    (op : Op T) : opSignal op s = some Err.invalidState := by
  cases op <;> simp [opSignal, emplace, pop, top, reserve, clear, sizeOp, emptyOp, hv]

/-- The const top overload makes no progress: exhausting any fuel yields
nothing. -/
theorem topConstFuel_eq_none {T : Type} : ∀ (fuel : Nat) (s : Stack T),
    topConstFuel fuel s = none
  | 0, _ => rfl
  | n + 1, s => topConstFuel_eq_none n s

/-- The const top overload diverges on every state whatsoever. -/
theorem topConstDiverges_all {T : Type} (s : Stack T) : topConstDiverges s :=
  fun fuel => topConstFuel_eq_none fuel s

/-- Restoring the overwritten byte recovers the original object. -/
theorem corrupt_restore {T : Type} (s : Stack T) (f : CtrlField) (j b : Nat)
    (hwf : wf s) (hj : j < 8) (hb : b < 256) :
    corrupt (corrupt s f j b) f j (byteAt s f j) = s := by
  obtain ⟨h1, h2, h3, h4, h5⟩ := hwf
  cases f
  case startF =>
    simp only [corrupt, byteAt, fieldVal]
    rw [setByteN_restore j b h1 hj hb]
  case capF =>
    simp only [corrupt, byteAt, fieldVal]
    rw [setByteN_restore j b h3 hj hb]
  case sizeF =>
    simp only [corrupt, byteAt, fieldVal]
    rw [setByteN_restore j b h4 hj hb]
  case endF =>
    simp only [corrupt, byteAt, fieldVal]
    rw [setByteN_restore j b h5 hj hb]

/-- Recomputing the tag of an already valid object does not change it. -/
theorem recomputeTag_eq_self {T : Type} {s : Stack T} (h : s.hash = compute_hash s) :
    recomputeTag s = s := by
  unfold recomputeTag
  rw [← h]

/-- Claim C1, amended: overwriting any single byte of a sentinel, the
capacity field or the size field of a valid container with a different value
makes valid() false, and the next public operation signals InvalidState for
every operation that performs the validity check (push, pop, the non-const
top, reserve, clear, size, empty) — the const-qualified top overload instead
never returns; restoring the original byte and recomputing the integrity tag
restores the original object and validity. -/
theorem C1_corruption_detection {T : Type} [Inhabited T] (s : Stack T) (f : CtrlField)
    (j b : Nat) (hv : valid s = true) (hwf : wf s) (hj : j < 8) (hb : b < 256)
    (hne : b ≠ byteAt s f j) :
    valid (corrupt s f j b) = false ∧
      (∀ op : Op T, opSignal op (corrupt s f j b) = some Err.invalidState) ∧
      topConstDiverges (corrupt s f j b) ∧
      corrupt (corrupt s f j b) f j (byteAt s f j) = s ∧
      valid (recomputeTag (corrupt (corrupt s f j b) f j (byteAt s f j))) = true := by
  have hfalse := valid_corrupt_false s f hv hj hb hne
  have hrestore := corrupt_restore s f j b hwf hj hb
  refine ⟨hfalse, fun op => opSignal_invalid _ hfalse op, topConstDiverges_all _, hrestore, ?_⟩
  rw [hrestore, recomputeTag_eq_self ((valid_iff s).mp hv).2.2.1]
  exact hv

/-- Witness for C1 at a concrete input: the default constructed stack,
corrupting byte 0 of the capacity field to 7. -/
theorem C1_witness :
    valid (mkEmpty Nat) = true ∧ (7 : Nat) ≠ byteAt (mkEmpty Nat) CtrlField.capF 0 ∧
      valid (corrupt (mkEmpty Nat) CtrlField.capF 0 7) = false := by
  have h := C1_corruption_detection (mkEmpty Nat) CtrlField.capF 0 7 (by decide) (by decide)
    (by decide) (by decide) (by decide)
  exact ⟨by decide, by decide, h.1⟩

/-- Counterexample to C1 as stated: after corrupting a control byte of a
valid container, one public operation — the const-qualified top overload —
does not signal InvalidState: it never returns at all. -/
theorem C1_counterexample :
    valid (mkEmpty Nat) = true ∧ (7 : Nat) ≠ byteAt (mkEmpty Nat) CtrlField.capF 0 ∧
      valid (corrupt (mkEmpty Nat) CtrlField.capF 0 7) = false ∧
      topConstDiverges (corrupt (mkEmpty Nat) CtrlField.capF 0 7) := by
  refine ⟨by decide, by decide, by decide, ?_⟩
  intro fuel
  exact topConstFuel_eq_none fuel _

/-- Allocation events in concatenated traces add up. -/
theorem countAlloc_append (l1 l2 : List Ev) :
    countAlloc (l1 ++ l2) = countAlloc l1 + countAlloc l2 := by
  simp [countAlloc, List.filter_append]

/-- clear_internal on a valid object succeeds and resets to the released
empty state, preserving the canaries. -/
theorem valid_resetState {T : Type} {s : Stack T} (hc1 : s.start_canary = canary_value)
    (hc2 : s.end_canary = canary_value) : valid (resetState s) = true := by
  rw [valid_iff]
  exact ⟨hc1, hc2, rfl, Nat.le_refl 0, by simp [resetState, recomputeTag]⟩

theorem clear_internal_valid {T : Type} {s : Stack T} (hv : valid s = true) :
    ∃ s2 evs, clear_internal s = (none, s2, evs) ∧ valid s2 = true ∧
      s2.size = 0 ∧ s2.capacity = 0 ∧ s2.dataAddr = 0 ∧
      s2.start_canary = s.start_canary ∧ s2.end_canary = s.end_canary ∧
      (s.elems.length = s.size → s2.elems = []) := by
  rcases (valid_iff s).mp hv with ⟨hc1, hc2, hh, hsc, hcd⟩
  by_cases hd : s.dataAddr = 0
  · have hcap : s.capacity = 0 := hcd.mpr hd
    have hsz : s.size = 0 := by omega
    refine ⟨s, [], ?_, hv, hsz, hcap, hd, rfl, rfl, ?_⟩
    · simp [clear_internal, hd, hv]
    · intro hlen
      rw [hsz] at hlen
      exact List.length_eq_zero.mp hlen
  · have hval : valid (resetState s) = true := valid_resetState hc1 hc2
    refine ⟨resetState s, List.replicate s.size Ev.destroyE ++ [Ev.deallocE s.dataAddr s.capacity],
      ?_, hval, rfl, rfl, rfl, rfl, rfl, fun _ => rfl⟩
    simp only [clear_internal, beq_iff_eq, if_neg hd]
    rw [if_pos hval]

/-- reserve with a positive capacity at least the size, on a valid object,
with a successful nonzero allocation: succeeds, keeps the live prefix, and
performs exactly one allocation. -/
theorem valid_reservedState {T : Type} {s : Stack T} {n a : Nat} (hv : valid s = true)
    (hn : 0 < n) (hsz : min s.capacity s.size ≤ n) (ha : a ≠ 0) :
    valid (reservedState s n a) = true := by
  rcases (valid_iff s).mp hv with ⟨hc1, hc2, hh, hsc, hcd⟩
  rw [valid_iff]
  refine ⟨hc1, hc2, rfl, hsz, ?_⟩
  constructor
  · intro h
    simp only [reservedState, recomputeTag] at h
    omega
  · intro h
    exact absurd h ha

theorem countAlloc_reserveEvs {T : Type} (s : Stack T) (n a : Nat) :
    countAlloc (reserveEvs s n a) = 1 := by
  unfold reserveEvs
  by_cases hd : s.dataAddr = 0
  · simp [hd, countAlloc]
  · have hd' : (s.dataAddr == 0) = false := by simp [hd]
    simp only [hd', Bool.false_eq_true, if_false]
    simp [countAlloc, List.filter_append]

theorem reserve_ok {T : Type} {s : Stack T} {n a : Nat} (hv : valid s = true)
    (hn : 0 < n) (hsz : s.size ≤ n) (ha : a ≠ 0) :
    reserve n (some a) s = (none, reservedState s n a, reserveEvs s n a) ∧
      valid (reservedState s n a) = true ∧
      (reservedState s n a).elems = s.elems.take s.size ∧
      (reservedState s n a).size = s.size ∧ (reservedState s n a).capacity = n ∧
      (reservedState s n a).dataAddr = a ∧
      (reservedState s n a).start_canary = s.start_canary ∧
      (reservedState s n a).end_canary = s.end_canary ∧
      countAlloc (reserveEvs s n a) = 1 := by
  rcases (valid_iff s).mp hv with ⟨hc1, hc2, hh, hsc, hcd⟩
  have hmin : min s.capacity s.size = s.size := Nat.min_eq_right hsc
  have hn0 : (n == 0) = false := by simp; omega
  have hval : valid (reservedState s n a) = true :=
    valid_reservedState hv hn (by omega) ha
  refine ⟨?_, hval, ?_, ?_, rfl, rfl, rfl, rfl, countAlloc_reserveEvs s n a⟩
  · simp only [reserve, hv, if_true, hn0, Bool.false_eq_true, if_false]
    rw [if_pos hval]
  · simp only [reservedState, recomputeTag, hmin]
  · simp only [reservedState, recomputeTag, hmin]

/-- reserve with a positive capacity fails atomically when allocation fails:
the error is signalled and the object is untouched. -/
theorem reserve_allocFail {T : Type} {s : Stack T} {n : Nat} (hv : valid s = true)
    (hn : 0 < n) : reserve n none s = (some Err.allocFail, s, []) := by
  have hn0 : (n == 0) = false := by simp; omega
  simp [reserve, hv, hn0]

/-- Constructing one more element on a state with free capacity keeps it
valid. -/
theorem valid_pushedState {T : Type} {s1 : Stack T} (x : T) (hv : valid s1 = true)
    (hlt : s1.size < s1.capacity) : valid (pushedState x s1) = true := by
  rcases (valid_iff s1).mp hv with ⟨hc1, hc2, hh, hsc, hcd⟩
  have hcne : s1.capacity ≠ 0 := by omega
  have hdne : s1.dataAddr ≠ 0 := fun h => hcne (hcd.mpr h)
  rw [valid_iff]
  refine ⟨hc1, hc2, rfl, ?_, ?_⟩
  · simp only [pushedState, recomputeTag]
    omega
  · simp only [pushedState, recomputeTag]
    exact ⟨fun h => absurd h hcne, fun h => absurd h hdne⟩

/-- The removal step of pop keeps a valid nonempty state valid. -/
theorem valid_poppedState {T : Type} {s : Stack T} (hv : valid s = true)
    (hpos : 0 < s.size) : valid (poppedState s) = true := by
  rcases (valid_iff s).mp hv with ⟨hc1, hc2, hh, hsc, hcd⟩
  have hcne : s.capacity ≠ 0 := by omega
  have hdne : s.dataAddr ≠ 0 := fun h => hcne (hcd.mpr h)
  rw [valid_iff]
  refine ⟨hc1, hc2, rfl, ?_, ?_⟩
  · simp only [poppedState, recomputeTag]
    omega
  · simp only [poppedState, recomputeTag]
    exact ⟨fun h => absurd h hcne, fun h => absurd h hdne⟩

/-- emplace on a good state with a successful nonzero allocation: no error,
the element lands on top, the size grows by one, and a reallocation happens
exactly when the container was full, with new capacity 2 * capacity + 1. -/
theorem emplace_ok {T : Type} {s : Stack T} {a : Nat} (x : T) (hg : good s) (ha : a ≠ 0) :
    ∃ s2 evs, emplace x (some a) s = (none, s2, evs) ∧ good s2 ∧
      s2.elems = s.elems ++ [x] ∧ s2.size = s.size + 1 ∧
      s2.capacity = (if s.size = s.capacity then 2 * s.capacity + 1 else s.capacity) ∧
      s2.start_canary = s.start_canary ∧ s2.end_canary = s.end_canary ∧
      countAlloc evs = (if s.size = s.capacity then 1 else 0) := by
  obtain ⟨hv, hlen⟩ := hg
  rcases (valid_iff s).mp hv with ⟨hc1, hc2, hh, hsc, hcd⟩
  by_cases hfull : s.size = s.capacity
  · have hbeq : (s.size == s.capacity) = true := by simp [hfull]
    obtain ⟨heq, hval1, helems1, hsz1, hcap1, hdata1, hsc1, hec1, hca⟩ :=
      reserve_ok (n := 2 * s.capacity + 1) (a := a) hv (by omega) (by omega) ha
    have htake : s.elems.take s.size = s.elems := by
      rw [← hlen]
      exact List.take_length s.elems
    have hvp : valid (pushedState x (reservedState s (2 * s.capacity + 1) a)) = true := by
      refine valid_pushedState x hval1 ?_
      rw [hsz1, hcap1]
      omega
    refine ⟨pushedState x (reservedState s (2 * s.capacity + 1) a),
      reserveEvs s (2 * s.capacity + 1) a ++ [Ev.constructE], ?_, ?_, ?_, ?_, ?_, ?_, ?_, ?_⟩
    · simp only [emplace, hv, if_true, hbeq, heq]
      rw [if_pos hvp]
    · refine ⟨hvp, ?_⟩
      simp only [pushedState, recomputeTag, List.length_append, List.length_singleton,
        helems1, hsz1, htake, hlen]
    · simp only [pushedState, recomputeTag, helems1, htake]
    · simp only [pushedState, recomputeTag, hsz1]
    · simp only [pushedState, recomputeTag, hcap1, if_pos hfull]
    · simp only [pushedState, recomputeTag, hsc1]
    · simp only [pushedState, recomputeTag, hec1]
    · rw [countAlloc_append, hca, if_pos hfull]
      simp [countAlloc]
  · have hbeq : (s.size == s.capacity) = false := by simp [hfull]
    have hvp : valid (pushedState x s) = true :=
      valid_pushedState x hv (by omega)
    refine ⟨pushedState x s, [] ++ [Ev.constructE], ?_, ?_, rfl, rfl, ?_, rfl, rfl, ?_⟩
    · simp only [emplace, hv, if_true, hbeq, Bool.false_eq_true, if_false]
      rw [if_pos hvp]
    · refine ⟨hvp, ?_⟩
      simp only [pushedState, recomputeTag, List.length_append, List.length_singleton, hlen]
    · simp only [pushedState, recomputeTag, if_neg hfull]
    · rw [if_neg hfull]
      simp [countAlloc]

/-- pop on a good nonempty state with a successful nonzero allocation: no
error, the top element is removed, and the capacity shrinks to exactly the
new size when the shrink condition size / capacity < 0.4 holds (releasing
the buffer entirely when the new size is 0), and stays unchanged
otherwise. -/
theorem pop_ok {T : Type} {s : Stack T} {a : Nat} (hg : good s) (hpos : 0 < s.size)
    (ha : a ≠ 0) :
    ∃ s2 evs, pop (some a) s = (none, s2, evs) ∧ good s2 ∧
      s2.elems = s.elems.take (s.size - 1) ∧ s2.size = s.size - 1 ∧
      s2.capacity = (if 5 * (s.size - 1) < 2 * s.capacity then s.size - 1 else s.capacity) ∧
      (5 * (s.size - 1) < 2 * s.capacity → s.size - 1 = 0 → s2.dataAddr = 0) ∧
      s2.start_canary = s.start_canary ∧ s2.end_canary = s.end_canary := by
  obtain ⟨hv, hlen⟩ := hg
  rcases (valid_iff s).mp hv with ⟨hc1, hc2, hh, hsc, hcd⟩
  have h0 : (s.size == 0) = false := by simp; omega
  have hvp : valid (poppedState s) = true := valid_poppedState hv hpos
  have hplen : (poppedState s).elems.length = (poppedState s).size := by
    simp only [poppedState, recomputeTag, List.length_take, hlen]
    omega
  have hpsz : (poppedState s).size = s.size - 1 := rfl
  have hpcap : (poppedState s).capacity = s.capacity := rfl
  by_cases hsh : 5 * (s.size - 1) < 2 * s.capacity
  · have hshb : 5 * (poppedState s).size < 2 * (poppedState s).capacity := by
      rw [hpsz, hpcap]
      exact hsh
    by_cases hz : s.size - 1 = 0
    · obtain ⟨s2, evs, heq, hval2, hsz2, hcap2, hdata2, hsc2, hec2, helems2⟩ :=
        clear_internal_valid hvp
    -- reserve 0 routes to clear_internal
      have hres : reserve (poppedState s).size (some a) (poppedState s) = (none, s2, evs) := by
        have hz' : ((poppedState s).size == 0) = true := by
          rw [hpsz]
          simp [hz]
        simp only [reserve, hvp, if_true, hz', heq]
      refine ⟨s2, Ev.destroyE :: evs, ?_, ⟨hval2, ?_⟩, ?_, ?_, ?_, ?_, ?_, ?_⟩
      · simp only [pop, hv, if_true, h0, Bool.false_eq_true, if_false, hshb, hres]
        rw [if_pos hval2]
      · rw [helems2 hplen, hsz2]
        rfl
      · rw [helems2 hplen, hz]
        simp
      · omega
      · rw [if_pos hsh, hcap2, hz]
      · intro _ _
        exact hdata2
      · rw [hsc2]
        rfl
      · rw [hec2]
        rfl
    · obtain ⟨heq, hval1, helems1, hsz1, hcap1, hdata1, hsc1, hec1, hca⟩ :=
        reserve_ok (s := poppedState s) (n := (poppedState s).size) (a := a) hvp
          (by omega) (Nat.le_refl _) ha
      refine ⟨reservedState (poppedState s) (poppedState s).size a,
        Ev.destroyE :: reserveEvs (poppedState s) (poppedState s).size a,
        ?_, ⟨hval1, ?_⟩, ?_, ?_, ?_, ?_, ?_, ?_⟩
      · simp only [pop, hv, if_true, h0, Bool.false_eq_true, if_false, hshb, heq]
        rw [if_pos hval1]
      · rw [helems1, hsz1]
        simp only [poppedState, recomputeTag]
        simp [List.take_take, hlen]
      · rw [helems1]
        simp only [poppedState, recomputeTag]
        simp [List.take_take]
      · rw [hsz1, hpsz]
      · rw [hcap1, if_pos hsh, hpsz]
      · intro _ hzz
        exact absurd hzz hz
      · rw [hsc1]
        rfl
      · rw [hec1]
        rfl
  · have hshb : ¬ 5 * (poppedState s).size < 2 * (poppedState s).capacity := by
      rw [hpsz, hpcap]
      exact hsh
    refine ⟨poppedState s, [Ev.destroyE], ?_, ⟨hvp, hplen⟩, rfl, hpsz, ?_, ?_, rfl, rfl⟩
    · simp only [pop, hv, if_true, h0, Bool.false_eq_true, if_false, if_neg hshb]
      rw [if_pos hvp]
    · rw [if_neg hsh, hpcap]
    · intro hcon
      exact absurd hcon hsh

/-- top on a valid nonempty state returns the element at index size - 1. -/
theorem top_ok {T : Type} [Inhabited T] {s : Stack T} (hv : valid s = true)
    (hpos : 0 < s.size) : top s = Except.ok (s.elems.getD (s.size - 1) default) := by
  have h0 : (s.size == 0) = false := by simp; omega
  simp [top, hv, h0]

/-- clear on a valid object succeeds and leaves the released empty state. -/
theorem clear_ok {T : Type} {d : Stack T} (hv : valid d = true) :
    ∃ d1 evs, clear d = (none, d1, evs) ∧ valid d1 = true ∧ d1.size = 0 ∧
      d1.capacity = 0 ∧ d1.dataAddr = 0 ∧ d1.start_canary = d.start_canary ∧
      d1.end_canary = d.end_canary := by
  obtain ⟨d1, evs, heq, hval, hsz, hcap, hdata, hsc, hec, _⟩ := clear_internal_valid hv
  refine ⟨d1, evs, ?_, hval, hsz, hcap, hdata, hsc, hec⟩
  simp only [clear, hv, if_true, heq]
  rw [if_pos hval]

/-- clear on a valid object owning a buffer destroys its elements and then
deallocates that buffer. -/
theorem clear_nonnull {T : Type} {d : Stack T} (hv : valid d = true)
    (hd : d.dataAddr ≠ 0) :
    clear d = (none, resetState d,
      List.replicate d.size Ev.destroyE ++ [Ev.deallocE d.dataAddr d.capacity]) := by
  rcases (valid_iff d).mp hv with ⟨hc1, hc2, _, _, _⟩
  have hval : valid (resetState d) = true := valid_resetState hc1 hc2
  have hci : clear_internal d = (none, resetState d,
      List.replicate d.size Ev.destroyE ++ [Ev.deallocE d.dataAddr d.capacity]) := by
    simp only [clear_internal, beq_iff_eq, if_neg hd]
    rw [if_pos hval]
  simp only [clear, hv, if_true, hci]
  rw [if_pos hval]

/-- The object built by the move constructor is valid: fresh canaries, fresh
tag, and the size/capacity/data relations inherited from the valid source. -/
theorem valid_movedDst {T : Type} {s : Stack T} (hv : valid s = true) :
    valid (movedDst s) = true := by
  rcases (valid_iff s).mp hv with ⟨_, _, _, hsc, hcd⟩
  rw [valid_iff]
  refine ⟨rfl, rfl, ?_, hsc, hcd⟩
  simp only [movedDst, recomputeTag]
  exact compute_hash_mk_hash _ _ _ _ _ _ _ _

/-- The tombstoned source violates size <= capacity, so valid() is false. -/
theorem valid_tombstone_false {T : Type} (s : Stack T) : valid (tombstone s) = false := by
  cases hval : valid (tombstone s)
  · rfl
  · rcases (valid_iff _).mp hval with ⟨_, _, _, hsc, _⟩
    simp only [tombstone] at hsc
    omega

/-- Move construction from a valid source succeeds, producing the adopted
new object and the tombstoned source, with an empty heap trace. -/
theorem moveCtor_ok {T : Type} {s : Stack T} (hv : valid s = true) :
    moveCtor s = Except.ok (movedDst s, tombstone s, []) := by
  simp only [moveCtor, hv, if_true]
  rw [if_pos (valid_movedDst hv)]

/-- A destination that adopts the fields of a valid source is valid when its
own canaries were intact. -/
theorem valid_adoptedState {T : Type} {d1 src : Stack T} (hd : valid d1 = true)
    (hs : valid src = true) : valid (adoptedState d1 src) = true := by
  rcases (valid_iff d1).mp hd with ⟨hc1, hc2, _, _, _⟩
  rcases (valid_iff src).mp hs with ⟨_, _, _, hsc, hcd⟩
  rw [valid_iff]
  exact ⟨hc1, hc2, rfl, hsc, hcd⟩

/-- Move assignment between valid distinct objects succeeds: the destination
is first cleared, then adopts the source fields; the source is tombstoned. -/
theorem moveAssign_ok {T : Type} {dst src : Stack T} (hvd : valid dst = true)
    (hvs : valid src = true) :
    ∃ d1 evs, moveAssign dst src = (none, (adoptedState d1 src, tombstone src), evs) ∧
      valid d1 = true ∧ valid (adoptedState d1 src) = true := by
  obtain ⟨d1, evs, hceq, hval1, _, _, _, _, _⟩ := clear_ok hvd
  have hval2 : valid (adoptedState d1 src) = true := valid_adoptedState hval1 hvs
  refine ⟨d1, evs, ?_, hval1, hval2⟩
  simp only [moveAssign, hvd, hvs, if_true, hceq]
  rw [if_pos hval2]

/-- Claim C9: the const-qualified top overload unconditionally calls itself
on the same receiver, so it produces no result and signals no error for any
container and any fuel. -/
theorem C9_const_top_diverges (T : Type) (fuel : Nat) (s : Stack T) :
    topConstFuel fuel s = (none : Option (Except Err T)) :=
  topConstFuel_eq_none fuel s

/-- Claim C2, amended: move construction (or move assignment) from a valid
source transfers the buffer, capacity and size without element copies (the
destination adopts the very same buffer address and the heap trace of the
transfer holds no copy event), and every subsequent validate-first public
operation on the moved-from source signals InvalidState — except the
const-qualified top overload, which never returns and never signals. -/
theorem C2_move_semantics {T : Type} [Inhabited T] (s dst : Stack T)
    (hv : valid s = true) (hvd : valid dst = true) :
    (moveCtor s = Except.ok (movedDst s, tombstone s, []) ∧
      (movedDst s).elems = s.elems ∧ (movedDst s).dataAddr = s.dataAddr ∧
      (movedDst s).size = s.size ∧ valid (movedDst s) = true) ∧
    (∃ d1 evs, moveAssign dst s = (none, (adoptedState d1 s, tombstone s), evs) ∧
      (adoptedState d1 s).elems = s.elems ∧ (adoptedState d1 s).dataAddr = s.dataAddr ∧
      (adoptedState d1 s).size = s.size ∧ valid (adoptedState d1 s) = true ∧
      (∀ ev ∈ evs, ev ≠ Ev.copyE)) ∧
    valid (tombstone s) = false ∧
    (∀ op : Op T, opSignal op (tombstone s) = some Err.invalidState) ∧
    topConstDiverges (tombstone s) := by
  refine ⟨⟨moveCtor_ok hv, rfl, rfl, rfl, valid_movedDst hv⟩, ?_,
    valid_tombstone_false s,
    fun op => opSignal_invalid _ (valid_tombstone_false s) op,
    topConstDiverges_all _⟩
  rcases (valid_iff dst).mp hvd with ⟨hc1, hc2, _, _, _⟩
  by_cases hd : dst.dataAddr = 0
  · obtain ⟨d1, evs, heq, hv1, hv2⟩ := moveAssign_ok hvd hv
    refine ⟨d1, evs, heq, rfl, rfl, rfl, hv2, ?_⟩
    -- identify the clear trace: dst owns no buffer, so clear emits nothing
    have hclr : clear dst = (none, dst, []) := by
      have hci : clear_internal dst = (none, dst, []) := by
        simp [clear_internal, hd, hvd]
      simp only [clear, hvd, if_true, hci]
    have heq2 : moveAssign dst s = (none, (adoptedState dst s, tombstone s), []) := by
      simp only [moveAssign, hvd, hv, if_true, hclr]
      rw [if_pos (valid_adoptedState hvd hv)]
    rw [heq2] at heq
    have hevs : evs = [] := by
      have := congrArg (fun p => p.2.2) heq
      simpa using this.symm
    rw [hevs]
    intro ev hev
    simp at hev
  · have hclr := clear_nonnull hvd hd
    have hval1 : valid (resetState dst) = true := valid_resetState hc1 hc2
    have hval2 : valid (adoptedState (resetState dst) s) = true :=
      valid_adoptedState hval1 hv
    refine ⟨resetState dst,
      List.replicate dst.size Ev.destroyE ++ [Ev.deallocE dst.dataAddr dst.capacity],
      ?_, rfl, rfl, rfl, hval2, ?_⟩
    · simp only [moveAssign, hvd, hv, if_true, hclr]
      rw [if_pos hval2]
    · intro ev hev
      rcases List.mem_append.mp hev with h | h
      · rw [List.eq_of_mem_replicate h]
        intro hcon
        cases hcon
      · simp at h
        rw [h]
        intro hcon
        cases hcon

/-- Witness for C2 at concrete input: moving out of the three-element stack
stk3, with stk2 as a move-assignment destination. -/
theorem C2_witness :
    valid stk3 = true ∧ valid stk2 = true ∧
      moveCtor stk3 = Except.ok (movedDst stk3, tombstone stk3, []) ∧
      (movedDst stk3).elems = stk3.elems ∧ valid (tombstone stk3) = false := by
  have h := C2_move_semantics stk3 stk2 (by decide) (by decide)
  exact ⟨by decide, by decide, h.1.1, h.1.2.1, h.2.2.1⟩

/-- Counterexample to C2 as stated: after a move, one public operation on
the moved-from source — the const-qualified top overload — does not signal
InvalidState: it never returns at all. -/
theorem C2_counterexample :
    valid stk3 = true ∧ stk3.elems = [1, 2, 3] ∧
      moveCtor stk3 = Except.ok (movedDst stk3, tombstone stk3, []) ∧
      topConstDiverges (tombstone stk3) := by
  exact ⟨by decide, by decide, moveCtor_ok (by decide),
    fun fuel => topConstFuel_eq_none fuel _⟩

/-- Claim C4, amended: after move construction or move assignment from a
valid source, the integrity tag is recomputed on the destination (its stored
tag matches its new control block), but NOT on the moved-from source: the
source keeps its pre-move tag, and its validity fails through the forced
size > capacity violation. -/
theorem C4_move_tags {T : Type} (s dst : Stack T) (hv : valid s = true)
    (hvd : valid dst = true) :
    (movedDst s).hash = compute_hash (movedDst s) ∧
      (tombstone s).hash = s.hash ∧
      ¬ (tombstone s).size ≤ (tombstone s).capacity ∧
      valid (tombstone s) = false ∧
      (∃ d1 evs, moveAssign dst s = (none, (adoptedState d1 s, tombstone s), evs) ∧
        (adoptedState d1 s).hash = compute_hash (adoptedState d1 s)) := by
  refine ⟨?_, rfl, ?_, valid_tombstone_false s, ?_⟩
  · simp only [movedDst, recomputeTag]
    exact compute_hash_mk_hash _ _ _ _ _ _ _ _
  · simp only [tombstone]
    omega
  · obtain ⟨d1, evs, heq, _, _⟩ := moveAssign_ok hvd hv
    refine ⟨d1, evs, heq, ?_⟩
    simp only [adoptedState, recomputeTag]
    exact compute_hash_set_hash _ _ |>.symm

/-- Witness for C4 at concrete input: moving out of stk3, with stk2 as a
move-assignment destination. -/
theorem C4_witness :
    valid stk3 = true ∧ (movedDst stk3).hash = compute_hash (movedDst stk3) ∧
      (tombstone stk3).hash = stk3.hash ∧ valid (tombstone stk3) = false := by
  have h := C4_move_tags stk3 stk2 (by decide) (by decide)
  exact ⟨by decide, h.1, h.2.1, h.2.2.2.1⟩

/-- Counterexample to C4 as stated: after move-constructing from a default
constructed stack, the source's stored tag does NOT match its tombstoned
control block — the tag is stale, so the source fails validity through the
stale tag as well, not only through size > capacity. -/
theorem C4_counterexample :
    moveCtor (mkEmpty Nat) = Except.ok (movedDst (mkEmpty Nat), tombstone (mkEmpty Nat), []) ∧
      (tombstone (mkEmpty Nat)).hash ≠ compute_hash (tombstone (mkEmpty Nat)) := by
  exact ⟨moveCtor_ok (by decide), by decide⟩

/-- Claim C3, amended: for a valid container, reserve(new_capacity) with
new_capacity = 0 or new_capacity at least the current size either completes
leaving a valid state or, when allocation fails, fails atomically with the
prior state fully preserved; for 0 < new_capacity < size the operation
instead mutates the object into an invalid state (and the C++ code writes
past the end of the new buffer). -/
theorem C3_reserve_safety {T : Type} (s : Stack T) (n : Nat) (alloc : Option Nat)
    (hv : valid s = true) (hn : n = 0 ∨ s.size ≤ n)
    (ha : ∀ x, alloc = some x → x ≠ 0) :
    (∃ s2 evs, reserve n alloc s = (none, s2, evs) ∧ valid s2 = true) ∨
      reserve n alloc s = (some Err.allocFail, s, []) := by
  by_cases hn0 : n = 0
  · subst hn0
    obtain ⟨s2, evs, heq, hval, _, _, _, _, _, _⟩ := clear_internal_valid hv
    left
    refine ⟨s2, evs, ?_, hval⟩
    simpa [reserve, hv] using heq
  · have hsz : s.size ≤ n := by
      rcases hn with h | h
      · exact absurd h hn0
      · exact h
    cases alloc with
    | none =>
      right
      exact reserve_allocFail hv (by omega)
    | some a =>
      left
      obtain ⟨heq, hval, _, _, _, _, _, _, _⟩ :=
        reserve_ok (n := n) (a := a) hv (by omega) hsz (ha a rfl)
      exact ⟨_, _, heq, hval⟩

/-- Witness for C3 at concrete input: growing the two-element stack stk2 to
capacity 5 with a successful allocation at address 200. -/
theorem C3_witness :
    (∃ s2 evs, reserve 5 (some 200) stk2 = (none, s2, evs) ∧ valid s2 = true) ∨
      reserve 5 (some 200) stk2 = (some Err.allocFail, stk2, []) := by
  refine C3_reserve_safety stk2 5 (some 200) (by decide) (Or.inr (by decide)) ?_
  intro x h
  injection h with h2
  omega

/-- Counterexample to C3 as stated: reserve 1 on the valid two-element stack
stk2 allocates successfully, yet neither completes in a valid state nor
preserves the prior state: the object is mutated (capacity 1, size 2) and
ends invalid. -/
theorem C3_counterexample :
    valid stk2 = true ∧ stk2.size = 2 ∧
      (reserve 1 (some 200) stk2).1 = some Err.invalidState ∧
      (reserve 1 (some 200) stk2).2.1 ≠ stk2 ∧
      valid (reserve 1 (some 200) stk2).2.1 = false := by
  exact ⟨by decide, by decide, by decide, by decide, by decide⟩

/-- Claim C8: pop() and (the non-const) top() on a valid empty container
signal Underflow and leave the container untouched. -/
theorem C8_underflow {T : Type} [Inhabited T] (s : Stack T) (alloc : Option Nat)
    (hv : valid s = true) (hz : s.size = 0) :
    pop alloc s = (some Err.underflow, s, []) ∧ top s = Except.error Err.underflow := by
  have h0 : (s.size == 0) = true := by simp [hz]
  constructor
  · simp [pop, hv, h0]
  · simp [top, hv, h0]

/-- Witness for C8 at concrete input: the default constructed stack. -/
theorem C8_witness :
    pop none (mkEmpty Nat) = (some Err.underflow, mkEmpty Nat, []) ∧
      top (mkEmpty Nat) = Except.error Err.underflow :=
  C8_underflow (mkEmpty Nat) none (by decide) (by decide)

/-- Claim C6: pushing onto a full good container performs exactly one
reallocation, the new capacity is 2 * capacity + 1 (hence strictly larger
and at least 1), and all previously pushed elements keep their logical
positions. -/
theorem C6_growth {T : Type} (s : Stack T) (x : T) (a : Nat) (hg : good s)
    (hfull : s.size = s.capacity) (ha : a ≠ 0) :
    ∃ s2 evs, emplace x (some a) s = (none, s2, evs) ∧ countAlloc evs = 1 ∧
      s2.capacity = 2 * s.capacity + 1 ∧ s.capacity < s2.capacity ∧
      1 ≤ s2.capacity ∧ s2.elems = s.elems ++ [x] ∧
      s2.elems.take s.size = s.elems ∧ good s2 := by
  obtain ⟨s2, evs, heq, hg2, helems, hsz, hcap, _, _, hca⟩ := emplace_ok x hg ha
  refine ⟨s2, evs, heq, ?_, ?_, ?_, ?_, helems, ?_, hg2⟩
  · rw [hca, if_pos hfull]
  · rw [hcap, if_pos hfull]
  · rw [hcap, if_pos hfull]
    omega
  · rw [hcap, if_pos hfull]
    omega
  · rw [helems, ← hg.2, List.take_left]

/-- Witness for C6 at concrete input: pushing 99 onto the full three-element
stack stk3 with a successful allocation at address 200. -/
theorem C6_witness :
    ∃ s2 evs, emplace 99 (some 200) stk3 = (none, s2, evs) ∧ countAlloc evs = 1 ∧
      s2.capacity = 2 * stk3.capacity + 1 ∧ stk3.capacity < s2.capacity ∧
      1 ≤ s2.capacity ∧ s2.elems = stk3.elems ++ [99] ∧
      s2.elems.take stk3.size = stk3.elems ∧ good s2 :=
  C6_growth stk3 99 200 (by decide) (by decide) (by decide)

/-- Claim C7: after pop removes an element, when the new size over the
capacity is below the shrink factor 0.4 (exactly: 5 * new size is below
2 * capacity) the capacity becomes exactly the new size — with the whole
buffer released when the new size is 0 — and otherwise the capacity is
unchanged. -/
theorem C7_shrink {T : Type} (s : Stack T) (a : Nat) (hg : good s)
    (hpos : 0 < s.size) (ha : a ≠ 0) :
    ∃ s2 evs, pop (some a) s = (none, s2, evs) ∧ s2.size = s.size - 1 ∧
      (5 * (s.size - 1) < 2 * s.capacity →
        s2.capacity = s.size - 1 ∧ (s.size - 1 = 0 → s2.dataAddr = 0)) ∧
      (¬ 5 * (s.size - 1) < 2 * s.capacity → s2.capacity = s.capacity) ∧
      good s2 := by
  obtain ⟨s2, evs, heq, hg2, helems, hsz, hcap, hdata, _, _⟩ := pop_ok hg hpos ha
  refine ⟨s2, evs, heq, hsz, ?_, ?_, hg2⟩
  · intro hsh
    exact ⟨by rw [hcap, if_pos hsh], fun hz => hdata hsh hz⟩
  · intro hsh
    rw [hcap, if_neg hsh]

/-- Witness for C7 at concrete input: popping the single element of stk14
(size 1, capacity 4) releases the whole buffer: 5 * 0 < 2 * 4. -/
theorem C7_witness :
    ∃ s2 evs, pop (some 200) stk14 = (none, s2, evs) ∧ s2.size = stk14.size - 1 ∧
      (5 * (stk14.size - 1) < 2 * stk14.capacity →
        s2.capacity = stk14.size - 1 ∧ (stk14.size - 1 = 0 → s2.dataAddr = 0)) ∧
      (¬ 5 * (stk14.size - 1) < 2 * stk14.capacity → s2.capacity = stk14.capacity) ∧
      good s2 :=
  C7_shrink stk14 200 (by decide) (by decide) (by decide)

/-- Claim C10: copy assignment between distinct valid containers overwrites
the destination's data pointer, capacity and size with a freshly allocated
copy of the source while destroying none of the destination's previous
elements and deallocating nothing — unlike move assignment, which first
clears the destination, deallocating its old buffer. -/
theorem C10_copy_assign_leak {T : Type} (dst src : Stack T) (a : Nat)
    (hvd : valid dst = true) (hvs : valid src = true) (hlive : 0 < dst.size) :
    (copyAssign a dst src).2.1 = copiedState a dst src ∧
      (copiedState a dst src).dataAddr = a ∧
      (copiedState a dst src).capacity = src.capacity ∧
      (copiedState a dst src).size = src.size ∧
      (copiedState a dst src).elems = src.elems.take src.size ∧
      noRelease (copyAssign a dst src).2.2 = true ∧
      (∃ evs, moveAssign dst src = (none, (adoptedState (resetState dst) src, tombstone src), evs) ∧
        Ev.deallocE dst.dataAddr dst.capacity ∈ evs) := by
  rcases (valid_iff dst).mp hvd with ⟨hc1, hc2, _, hsc, hcd⟩
  have hcne : dst.capacity ≠ 0 := by omega
  have hdne : dst.dataAddr ≠ 0 := fun h => hcne (hcd.mpr h)
  refine ⟨?_, rfl, rfl, rfl, rfl, ?_, ?_⟩
  · simp [copyAssign, hvd, hvs]
  · have htr : (copyAssign a dst src).2.2 =
        Ev.allocE a src.capacity :: List.replicate src.size Ev.copyE := by
      simp [copyAssign, hvd, hvs]
    rw [htr]
    simp only [noRelease, List.all_cons, Bool.true_and, List.all_eq_true]
    intro ev hev
    rw [List.eq_of_mem_replicate hev]
  · have hclr := clear_nonnull hvd hdne
    have hval1 : valid (resetState dst) = true := valid_resetState hc1 hc2
    have hval2 : valid (adoptedState (resetState dst) src) = true :=
      valid_adoptedState hval1 hvs
    refine ⟨List.replicate dst.size Ev.destroyE ++ [Ev.deallocE dst.dataAddr dst.capacity],
      ?_, ?_⟩
    · simp only [moveAssign, hvd, hvs, if_true, hclr]
      rw [if_pos hval2]
    · exact List.mem_append.mpr (Or.inr (List.mem_singleton.mpr rfl))

/-- The default constructed stack is valid with a synced empty ghost list. -/
theorem good_mkEmpty (T : Type) : good (mkEmpty T) := by
  constructor
  · rw [valid_iff]
    refine ⟨rfl, rfl, ?_, Nat.le_refl 0, by simp [mkEmpty, recomputeTag]⟩
    simp only [mkEmpty, recomputeTag]
    exact compute_hash_mk_hash _ _ _ _ _ _ _ _
  · rfl

/-- Pushing a whole list onto a good stack succeeds and appends it in order
to the live elements. -/
theorem pushAll_spec {T : Type} : ∀ (xs : List T) (k : Nat) (s : Stack T), good s →
    good (pushAll xs k s).1 ∧ (pushAll xs k s).1.elems = s.elems ++ xs
  | [], k, s, hg => ⟨hg, by simp [pushAll]⟩
  | x :: xs, k, s, hg => by
    obtain ⟨s2, evs, heq, hg2, helems, _, _, _, _, _⟩ :=
      emplace_ok (a := k + 1) x hg (Nat.succ_ne_zero k)
    have ih := pushAll_spec xs (k + 1) s2 hg2
    simp only [pushAll, heq]
    refine ⟨ih.1, ?_⟩
    rw [ih.2, helems]
    simp

/-- Popping a good stack dry, observing top() before each pop, reads back
exactly the live elements in reverse order and ends in the empty state. -/
theorem popAllObs_spec {T : Type} [Inhabited T] : ∀ (n k : Nat) (s : Stack T),
    good s → s.size = n →
    (popAllObs n k s).1 = s.elems.reverse.map Except.ok ∧
      good (popAllObs n k s).2 ∧ (popAllObs n k s).2.size = 0
  | 0, k, s, hg, hn => by
    have hel : s.elems = [] := List.length_eq_zero.mp (by rw [hg.2, hn])
    refine ⟨by simp [popAllObs, hel], hg, hn⟩
  | n + 1, k, s, hg, hn => by
    have hpos : 0 < s.size := by omega
    obtain ⟨s2, evs, heq, hg2, helems, hsz, _, _, _, _⟩ :=
      pop_ok (a := k + 1) hg hpos (Nat.succ_ne_zero k)
    have hsz2 : s2.size = n := by omega
    have htop := top_ok hg.1 hpos
    have hlen : s.elems.length = n + 1 := by rw [hg.2, hn]
    have hlt : n < s.elems.length := by omega
    have hdecomp : s.elems = s.elems.take n ++ [s.elems[n]] := by
      calc s.elems = s.elems.take n ++ s.elems.drop n := (List.take_append_drop n s.elems).symm
        _ = s.elems.take n ++ (s.elems[n] :: s.elems.drop (n + 1)) := by
            rw [← List.drop_eq_getElem_cons hlt]
        _ = s.elems.take n ++ [s.elems[n]] := by
            rw [List.drop_eq_nil_of_le (by omega)]
    have hgetD : s.elems.getD (s.size - 1) default = s.elems[n] := by
      rw [hn]
      simp only [Nat.add_sub_cancel, List.getD_eq_getElem?_getD,
        List.getElem?_eq_getElem hlt, Option.getD_some]
    have helems2 : s2.elems = s.elems.take n := by
      rw [helems, hn]
      simp
    have ih := popAllObs_spec n (k + 1) s2 hg2 hsz2
    simp only [popAllObs, heq, htop]
    refine ⟨?_, ih.2.1, ih.2.2⟩
    simp only [ih.1, helems2, hgetD]
    conv_rhs => rw [hdecomp]
    rw [List.reverse_concat]
    simp

/-- Claim C5: for every sequence of values, pushing them all onto a freshly
constructed container and then popping as many times leaves the container
empty and valid, and the values observed by top() before each pop appear in
strict reverse push order. -/
theorem C5_lifo {T : Type} [Inhabited T] (xs : List T) :
    (popAllObs xs.length (pushAll xs 1 (mkEmpty T)).2 (pushAll xs 1 (mkEmpty T)).1).1 =
      xs.reverse.map Except.ok ∧
    (popAllObs xs.length (pushAll xs 1 (mkEmpty T)).2 (pushAll xs 1 (mkEmpty T)).1).2.size = 0 ∧
    valid (popAllObs xs.length (pushAll xs 1 (mkEmpty T)).2 (pushAll xs 1 (mkEmpty T)).1).2 = true := by
  obtain ⟨hg1, helems1⟩ := pushAll_spec xs 1 (mkEmpty T) (good_mkEmpty T)
  have helems1' : (pushAll xs 1 (mkEmpty T)).1.elems = xs := by
    rw [helems1]
    rfl
  have hsz1 : (pushAll xs 1 (mkEmpty T)).1.size = xs.length := by
    rw [← hg1.2, helems1']
  obtain ⟨hobs, hg2, hsz2⟩ :=
    popAllObs_spec xs.length (pushAll xs 1 (mkEmpty T)).2 (pushAll xs 1 (mkEmpty T)).1 hg1 hsz1
  rw [helems1'] at hobs
  exact ⟨hobs, hsz2, hg2.1⟩

/-- Witness for C10 at concrete input: copy-assigning stk3 into stk2 with a
fresh buffer at address 300. -/
theorem C10_witness :
    (copyAssign 300 stk2 stk3).2.1 = copiedState 300 stk2 stk3 ∧
      (copiedState 300 stk2 stk3).dataAddr = 300 ∧
      (copiedState 300 stk2 stk3).capacity = stk3.capacity ∧
      (copiedState 300 stk2 stk3).size = stk3.size ∧
      (copiedState 300 stk2 stk3).elems = stk3.elems.take stk3.size ∧
      noRelease (copyAssign 300 stk2 stk3).2.2 = true ∧
      (∃ evs, moveAssign stk2 stk3 = (none, (adoptedState (resetState stk2) stk3, tombstone stk3), evs) ∧
        Ev.deallocE stk2.dataAddr stk2.capacity ∈ evs) :=
  C10_copy_assign_leak stk2 stk3 300 (by decide) (by decide) (by decide)

end SafeStack
